import Mathlib

/-!
Verification of the directory-analyzer scan engine.

Shallow embedding of the Python sources (src/scanner.py, src/utils.py,
src/models.py, src/classifier.py) into Lean 4.

Modelling conventions:
* The filesystem is a finite tree value (`FSDir`): each node carries its
  absolute POSIX path, the outcome of listing it (`access = some e` models
  `Path.iterdir` raising `PermissionError`/`OSError` with message `e`),
  its direct regular files and its subdirectories.
* A file carries the size its `stat` would report and a flag `statOk`
  modelling whether `Path.stat()` succeeds (false models a vanished or
  unreadable file).
* Timestamps (`last_scanned`, `scan_duration`) and MIME-type lookup are
  dropped: no claim mentions them and they are environment inputs.
* Python `dict`s (insertion-ordered) are association lists; Python `set`s
  of strings are lists whose membership is the set membership.
* The thread-pool of `scan_directories_parallel` is modelled by folding
  the same per-directory work over an arbitrary permutation
  (`as_completed` completion order) of the materialized directory list;
  the shared-state updates of a single directory are the atomic unit, as
  in the CPython runtime where each bytecode-level append/increment is
  performed under the global interpreter lock.
-/

/-- A regular file: absolute path, the size reported by a successful
`stat`, and whether `stat` succeeds at all. -/
structure FSFile where
  path : String
  size : Nat
  statOk : Bool
deriving Repr, DecidableEq

/-- A directory node: absolute path, the outcome of listing it
(`some e` = listing raises with message `e`), direct files, subdirectories. -/
inductive FSDir where
  | node (path : String) (access : Option String) (files : List FSFile)
      (subdirs : List FSDir)

/-- Absolute path of a directory node. -/
def FSDir.path : FSDir → String
  | .node p _ _ _ => p

/-- Listing outcome of a directory node. -/
def FSDir.access : FSDir → Option String
  | .node _ a _ _ => a

/-- Direct files of a directory node. -/
def FSDir.files : FSDir → List FSFile
  | .node _ _ fs _ => fs

/-- Subdirectories of a directory node. -/
def FSDir.subdirs : FSDir → List FSDir
  | .node _ _ _ ss => ss

/-- Models `Path.iterdir()`: either the directory's entries (files and
subdirectories) or the raised error. -/
def FSDir.iterdir (d : FSDir) : Except String (List FSFile × List FSDir) :=
  match d.access with
  | some e => .error e
  | none => .ok (d.files, d.subdirs)

/-- Models `Path.stat().st_size`: the file's size, or a raised `OSError`. -/
def FSFile.stat (f : FSFile) : Except String Nat :=
  if f.statOk then .ok f.size else .error "OSError"

/- Path helpers.  Paths are normalized POSIX paths (no trailing slash),
as `pathlib` produces them. -/

/-- Characters of the final path component (text after the last slash). -/
def pathNameAux : List Char → List Char → List Char
  | [], acc => acc
  | c :: cs, acc => if c = '/' then pathNameAux cs [] else pathNameAux cs (acc ++ [c])

/-- Models `Path.name`: the final path component. -/
def pathName (p : String) : String :=
  (pathNameAux p.toList []).asString

/-- Position of the last dot in a list of characters, if any. -/
def lastDotPos : List Char → Option Nat
  | [] => none
  | c :: cs =>
    match lastDotPos cs with
    | some i => some (i + 1)
    | none => if c = '.' then some 0 else none

/-- Models `Path.suffix`: with `i` the index of the last dot of the final
component `name`, the slice `name[i:]` when `0 < i < len(name) - 1`,
otherwise the empty string. -/
def pathSuffix (p : String) : String :=
  let name := (pathName p).toList
  match lastDotPos name with
  | none => ""
  | some i => if 0 < i ∧ i + 1 < name.length then (name.drop i).asString else ""

/-- Models Python `str.lower` (ASCII-adequate, as the extension tables are). -/
def strLower (s : String) : String :=
  (s.toList.map Char.toLower).asString

/-- Models `str.startswith(".")`. -/
def startsWithDot (s : String) : Bool :=
  match s.toList with
  | [] => false
  | c :: _ => c = '.'

/- src/utils.py -/

/-- Embeds `utils.is_hidden_directory_cross_platform`: on POSIX platforms
(the Windows attribute probe aside) a directory is hidden iff its name is
dot-prefixed. -/
def is_hidden_directory_cross_platform (path : String) : Bool :=
  startsWithDot (pathName path)

/-- Embeds `utils.is_accessible_directory`: try listing; any raised
`PermissionError`/`OSError` yields `false`. -/
def is_accessible_directory (d : FSDir) : Bool :=
  match d.iterdir with
  | .ok _ => true
  | .error _ => false

/-- Embeds `utils.safe_get_file_size`: try `stat`; any raised error
yields `0`. -/
def safe_get_file_size (f : FSFile) : Nat :=
  match f.stat with
  | .ok n => n
  | .error _ => 0

/-- Embeds `utils.get_direct_files`: the files directly in the directory
(`item.is_file()` entries of `iterdir`); a raised listing error is logged
and swallowed, yielding nothing. -/
def get_direct_files (d : FSDir) : List FSFile :=
  match d.iterdir with
  | .ok (files, _) => files
  | .error _ => []

/-- Embeds `utils.get_subdirectories`: the `item.is_dir()` entries of
`iterdir`, hidden ones kept only when `include_hidden`; a raised listing
error is logged and swallowed, yielding nothing. -/
def get_subdirectories (d : FSDir) (include_hidden : Bool) : List FSDir :=
  match d.iterdir with
  | .ok (_, subdirs) =>
    subdirs.filter (fun item => include_hidden || !is_hidden_directory_cross_platform item.path)
  | .error _ => []

example : pathSuffix "/a/b/x.TXT" = ".TXT" := by decide
example : pathSuffix "/a/b/.bashrc" = "" := by decide
example : pathSuffix "/a/b/noext" = "" := by decide
example : pathSuffix "/a/b/x.tar.gz" = ".gz" := by decide
example : strLower ".TXT" = ".txt" := by decide
example : is_hidden_directory_cross_platform "/a/.hid" = true := by decide
example : is_hidden_directory_cross_platform "/a/vis" = false := by decide

/- src/classifier.py -/

/-- Embeds `ContentClassifier.CATEGORY_MAPPINGS`: the insertion-ordered
built-in category table (Python dict of sets; sets become lists whose
membership is the set membership). -/
def CATEGORY_MAPPINGS : List (String × List String) := [
  ("images", [".jpg", ".jpeg", ".png", ".gif", ".bmp", ".tiff", ".webp", ".svg",
    ".raw", ".cr2", ".nef", ".arw", ".dng", ".raf", ".orf", ".rw2",
    ".pef", ".srw", ".x3f", ".ico", ".heic", ".heif", ".avif"]),
  ("videos", [".mp4", ".avi", ".mov", ".mkv", ".wmv", ".flv", ".webm", ".m4v",
    ".3gp", ".mpg", ".mpeg", ".m2v", ".mts", ".ts", ".vob", ".rm",
    ".rmvb", ".asf", ".ogv", ".dv", ".f4v", ".m4p", ".divx"]),
  ("audio", [".mp3", ".flac", ".wav", ".aac", ".ogg", ".m4a", ".wma", ".opus",
    ".mp2", ".aiff", ".au", ".ra", ".ac3", ".dts", ".ape", ".tak",
    ".tta", ".wv", ".mka", ".caf", ".amr", ".3ga"]),
  ("documents", [".pdf", ".epub", ".mobi", ".chm", ".djvu", ".fb2", ".azw", ".azw3",
    ".azw4", ".lit", ".pdb", ".tcr", ".lrf", ".rb", ".pml", ".tr2", ".tr3"]),
  ("office", [".doc", ".docx", ".xls", ".xlsx", ".ppt", ".pptx", ".md", ".txt",
    ".rtf", ".odt", ".ods", ".odp", ".odg", ".odf", ".sxw", ".sxc",
    ".sxi", ".wpd", ".wps", ".pages", ".numbers", ".key", ".tex"]),
  ("archives", [".zip", ".rar", ".7z", ".tar", ".gz", ".bz2", ".xz", ".lzma",
    ".cab", ".iso", ".dmg", ".pkg", ".deb", ".rpm", ".msi", ".exe",
    ".z", ".lz", ".lzo", ".rz", ".sz", ".dz", ".tbz2", ".tgz", ".txz"]),
  ("code", [".py", ".js", ".html", ".css", ".java", ".cpp", ".c", ".rs", ".go",
    ".json", ".xml", ".yaml", ".yml", ".ini", ".cfg", ".conf", ".php",
    ".rb", ".pl", ".sh", ".bat", ".ps1", ".vbs", ".lua", ".r", ".m",
    ".swift", ".kt", ".scala", ".hs", ".clj", ".fs", ".ml", ".pas"]),
  ("system", [".exe", ".dll", ".sys", ".drv", ".ocx", ".cpl", ".scr", ".com",
    ".app", ".dmg", ".pkg", ".deb", ".rpm", ".so", ".dylib", ".ko",
    ".bin", ".run", ".bundle", ".framework", ".kext", ".prefpane"])]

/-- Python `dict` update at a single key: an existing key keeps its
position and gets the new value, a fresh key is appended at the end
(insertion order). -/
def dictUpdate (d : List (String × List String)) (k : String) (v : List String) :
    List (String × List String) :=
  if d.any (fun p => p.1 = k) then
    d.map (fun p => if p.1 = k then (k, v) else p)
  else d ++ [(k, v)]

/-- Embeds `ContentClassifier.__init__`: copy the built-in table, then
`dict.update` it with the optional custom categories (in their own
insertion order). -/
def ContentClassifier.init (custom_categories : Option (List (String × List String))) :
    List (String × List String) :=
  match custom_categories with
  | none => CATEGORY_MAPPINGS
  | some cs => cs.foldl (fun acc p => dictUpdate acc p.1 p.2) CATEGORY_MAPPINGS

/-- Embeds `ContentClassifier.classify_file`: lowercase the extension and
return the first category (in table order) whose set contains it,
defaulting to `"other"`. -/
def classify_file (categories : List (String × List String)) (file_path : String) : String :=
  let extension := strLower (pathSuffix file_path)
  match categories.find? (fun p => p.2.contains extension) with
  | some p => p.1
  | none => "other"

/-- Embeds `ContentClassifier.add_custom_category`: normalize the
extensions (lowercase, dot-prefixed) and assign the category, replacing
an existing key in place or appending a fresh one. -/
def add_custom_category (categories : List (String × List String))
    (category_name : String) (extensions : List String) : List (String × List String) :=
  dictUpdate categories category_name
    (extensions.map (fun ext =>
      if startsWithDot ext then strLower ext else "." ++ strLower ext))

example : classify_file CATEGORY_MAPPINGS "/a/photo.JPG" = "images" := by decide
example : classify_file CATEGORY_MAPPINGS "/a/x.weird" = "other" := by decide
example : classify_file CATEGORY_MAPPINGS "/a/x.rb" = "documents" := by decide
example : classify_file CATEGORY_MAPPINGS "/a/x.exe" = "archives" := by decide

/- src/models.py -/

/-- Embeds the `ScanOptions` dataclass fields (paths as strings;
`min_size_bytes` as an integer since the CLI accepts negatives;
`extension_filter` an optional string set). -/
structure ScanOptions where
  target_path : String
  include_hidden : Bool := true
  min_size_bytes : Int := 0
  output_file : String := "largest_directories.txt"
  top_count : Int := 50
  output_format : String := "text"
  verbose : Bool := false
  error_log_file : String := "no-access.txt"
  extension_filter : Option (List String) := none
deriving Repr, DecidableEq

/-- Python truthiness of the optional extension-filter set: `None` and the
empty set are falsy. -/
def extFilterTruthy : Option (List String) → Bool
  | none => false
  | some l => !l.isEmpty

/-- Embeds `ScanOptions.__post_init__`. The two filesystem probes
`target_path.exists()` / `target_path.is_dir()` are passed in as the
oracle booleans `target_exists` / `target_is_dir`. Raising `ValueError`
is modelled by returning `.error`; a constructed value exists only in the
`.ok` branch, so failure is atomic. The extension filter is normalized
(lowercase, dot-prefixed) only when truthy. -/
def ScanOptions.post_init (target_exists target_is_dir : Bool) (o : ScanOptions) :
    Except String ScanOptions :=
  if !target_exists then
    .error ("Target path does not exist: " ++ o.target_path)
  else if !target_is_dir then
    .error ("Target path is not a directory: " ++ o.target_path)
  else if o.top_count ≤ 0 then
    .error "Top count must be positive"
  else if !(o.output_format = "text" || o.output_format = "csv" || o.output_format = "json") then
    .error ("Invalid output format: " ++ o.output_format)
  else if extFilterTruthy o.extension_filter then
    let normalized_extensions := (o.extension_filter.getD []).map (fun ext =>
      let normalized_ext := strLower ext
      if startsWithDot normalized_ext then normalized_ext else "." ++ normalized_ext)
    .ok { o with extension_filter := some normalized_extensions }
  else .ok o

/-- Embeds the `FileInfo` dataclass (MIME hint dropped, see header). -/
structure FileInfo where
  path : String
  size_bytes : Nat
  extension : String
  category : String
deriving Repr, DecidableEq

/-- Embeds the `DirectoryInfo` dataclass (timestamp dropped, see header). -/
structure DirectoryInfo where
  path : String
  size_bytes : Nat
  file_count : Nat
  error_message : Option String := none
deriving Repr, DecidableEq

/-- The mutable fields of `DirectoryScanner` threaded through the scan:
`error_directories`, `total_directories`, `total_files`, `total_size`,
`all_files`. -/
structure ScanState where
  error_directories : List String
  total_directories : Nat
  total_files : Nat
  total_size : Nat
  all_files : List FileInfo
deriving Repr, DecidableEq

/-- State of a freshly constructed `DirectoryScanner`. -/
def DirectoryScanner.initState : ScanState :=
  { error_directories := [], total_directories := 0, total_files := 0,
    total_size := 0, all_files := [] }

/- src/scanner.py -/

/-- Embeds `ContentClassifier.classify_file_with_info`: build a
`FileInfo` with lowercased extension and classification. -/
def classify_file_with_info (categories : List (String × List String))
    (file_path : String) (file_size : Nat) : FileInfo :=
  { path := file_path, size_bytes := file_size,
    extension := strLower (pathSuffix file_path),
    category := classify_file categories file_path }

/-- One iteration of the file loop of
`DirectoryScanner.scan_single_directory`: skip the file when a truthy
extension filter does not contain its lowercased suffix; otherwise add
its safe size to the directory total, bump the directory count, and
append the classified `FileInfo` to the shared accumulator while bumping
the shared counters. The scanner's classifier is `ContentClassifier()`,
i.e. the built-in table. -/
def scanFileStep (opts : ScanOptions) (acc : Nat × Nat × ScanState) (file_path : FSFile) :
    Nat × Nat × ScanState :=
  if extFilterTruthy opts.extension_filter
      && !((opts.extension_filter.getD []).contains (strLower (pathSuffix file_path.path))) then
    acc
  else
    let file_size := safe_get_file_size file_path
    let file_info := classify_file_with_info (ContentClassifier.init none) file_path.path file_size
    (acc.1 + file_size, acc.2.1 + 1,
     { acc.2.2 with
        all_files := acc.2.2.all_files ++ [file_info],
        total_files := acc.2.2.total_files + 1,
        total_size := acc.2.2.total_size + file_size })

/-- Embeds `DirectoryScanner.scan_single_directory`: an inaccessible
directory yields a zeroed record with the fixed error message and its
path appended to the shared error list; an accessible one folds
`scanFileStep` over its direct files and yields the accumulated record. -/
def scan_single_directory (opts : ScanOptions) (directory : FSDir) (st : ScanState) :
    DirectoryInfo × ScanState :=
  if !is_accessible_directory directory then
    ({ path := directory.path, size_bytes := 0, file_count := 0,
       error_message := some "Permission denied or directory inaccessible" },
     { st with error_directories := st.error_directories ++ [directory.path] })
  else
    let r := (get_direct_files directory).foldl (scanFileStep opts) (0, 0, st)
    ({ path := directory.path, size_bytes := r.1, file_count := r.2.1,
       error_message := none }, r.2.2)

/-- Every subdirectory yielded by `get_subdirectories` is structurally
smaller than its parent (termination measure for the traversal). -/
theorem sizeOf_lt_of_mem_get_subdirectories {ih : Bool} {s d : FSDir}
    (h : s ∈ get_subdirectories d ih) : sizeOf s < sizeOf d := by
  cases d with
  | node p a fs ss =>
    have hss : s ∈ ss := by
      unfold get_subdirectories FSDir.iterdir FSDir.access at h
      cases a with
      | some e => simp at h
      | none =>
        simp only [FSDir.subdirs] at h
        exact List.mem_of_mem_filter h
    have := List.sizeOf_lt_of_mem hss
    simp only [FSDir.node.sizeOf_spec]
    omega

/-- Embeds `DirectoryScanner.get_all_directories`: yield the root, then
recursively traverse each of its (hidden-filtered) subdirectories. -/
def get_all_directories (include_hidden : Bool) (root_path : FSDir) : List FSDir :=
  root_path ::
    (get_subdirectories root_path include_hidden).attach.flatMap
      (fun s => get_all_directories include_hidden s.1)
termination_by sizeOf root_path
decreasing_by exact sizeOf_lt_of_mem_get_subdirectories s.2

/-- Unfolding equation for `get_all_directories` without the termination
wrapper. -/
theorem get_all_directories_eq (ih : Bool) (d : FSDir) :
    get_all_directories ih d =
      d :: (get_subdirectories d ih).flatMap (get_all_directories ih) := by
  rw [get_all_directories]
  congr 1
  rw [List.flatMap_def, List.flatMap_def, List.attach_map_val]

/-- One iteration of the directory loop shared by both execution
strategies: scan the directory, then keep the record only when its size
meets `min_size_bytes`. -/
def scanStep (opts : ScanOptions) (acc : List DirectoryInfo × ScanState) (directory : FSDir) :
    List DirectoryInfo × ScanState :=
  let (result, st2) := scan_single_directory opts directory acc.2
  (if (result.size_bytes : Int) ≥ opts.min_size_bytes then acc.1 ++ [result] else acc.1, st2)

/-- Embeds `DirectoryScanner.scan_directories_sequential`: materialize
the traversal (this is where `total_directories` is counted, one
increment per yielded directory), then scan each directory in
enumeration order, filtering results by `min_size_bytes`. -/
def scan_directories_sequential (opts : ScanOptions) (root : FSDir) (st : ScanState) :
    List DirectoryInfo × ScanState :=
  let all_directories := get_all_directories opts.include_hidden root
  let st1 := { st with total_directories := st.total_directories + all_directories.length }
  all_directories.foldl (scanStep opts) ([], st1)

/-- Embeds `DirectoryScanner.scan_directories_parallel`: the same
materialized traversal, but the per-directory work is performed and
collected in `as_completed` completion order, an arbitrary permutation
`completion_order` of the submitted list (see the header note on the
concurrency model). -/
def scan_directories_parallel (opts : ScanOptions) (root : FSDir)
    (completion_order : List FSDir) (st : ScanState) : List DirectoryInfo × ScanState :=
  let all_directories := get_all_directories opts.include_hidden root
  let st1 := { st with total_directories := st.total_directories + all_directories.length }
  completion_order.foldl (scanStep opts) ([], st1)

/-- Embeds the dict-building step shared by
`ContentClassifier.get_category_statistics` and
`get_file_count_by_category`: `if k not in d: d[k] = 0` then `d[k] += v`. -/
def bumpDict (stats : List (String × Nat)) (category : String) (v : Nat) :
    List (String × Nat) :=
  if stats.any (fun p => p.1 = category) then
    stats.map (fun p => if p.1 = category then (p.1, p.2 + v) else p)
  else stats ++ [(category, v)]

/-- Embeds `ContentClassifier.get_category_statistics`: total size per
category over a file list. -/
def get_category_statistics (files : List FileInfo) : List (String × Nat) :=
  files.foldl (fun stats file_info => bumpDict stats file_info.category file_info.size_bytes) []

/-- Embeds `ContentClassifier.get_file_count_by_category`: file count per
category over a file list. -/
def get_file_count_by_category (files : List FileInfo) : List (String × Nat) :=
  files.foldl (fun counts file_info => bumpDict counts file_info.category 1) []

/-- Embeds the `ScanStatistics` dataclass (scan duration dropped, see
header). -/
structure ScanStatistics where
  total_directories : Nat
  total_files : Nat
  total_size_bytes : Nat
  category_breakdown : List (String × Nat)
  file_count_by_category : List (String × Nat)
deriving Repr, DecidableEq

/-- Embeds `DirectoryScanner.create_scan_statistics`: package the global
accumulators and the per-category breakdowns of the global file list. -/
def create_scan_statistics (st : ScanState) : ScanStatistics :=
  { total_directories := st.total_directories,
    total_files := st.total_files,
    total_size_bytes := st.total_size,
    category_breakdown := get_category_statistics st.all_files,
    file_count_by_category := get_file_count_by_category st.all_files }

/-- Python `dict.get(k, 0)` on an association list. -/
def lookupD (d : List (String × Nat)) (k : String) : Nat :=
  match d.find? (fun p => p.1 = k) with
  | some p => p.2
  | none => 0

/-- Sum of the values of an association list (`sum(d.values())`). -/
def valuesSum (d : List (String × Nat)) : Nat :=
  (d.map (fun p => p.2)).sum

/- Characterization layer: closed forms of the scanning folds, used by
the claim proofs below. -/

/-- A file passes the extension filter of `scan_single_directory`
(vacuously when the filter is not truthy). -/
def acceptedFile (opts : ScanOptions) (f : FSFile) : Bool :=
  !(extFilterTruthy opts.extension_filter
    && !((opts.extension_filter.getD []).contains (strLower (pathSuffix f.path))))

/-- Direct files of a directory that pass the extension filter. -/
def dirAcceptedFiles (opts : ScanOptions) (d : FSDir) : List FSFile :=
  (get_direct_files d).filter (acceptedFile opts)

/-- Directory size as accumulated by `scan_single_directory`. -/
def dirSize (opts : ScanOptions) (d : FSDir) : Nat :=
  ((dirAcceptedFiles opts d).map safe_get_file_size).sum

/-- Directory file count as accumulated by `scan_single_directory`. -/
def dirCount (opts : ScanOptions) (d : FSDir) : Nat :=
  (dirAcceptedFiles opts d).length

/-- The classified `FileInfo`s a directory contributes to the global
accumulator. -/
def dirFileInfos (opts : ScanOptions) (d : FSDir) : List FileInfo :=
  (dirAcceptedFiles opts d).map
    (fun f => classify_file_with_info (ContentClassifier.init none) f.path (safe_get_file_size f))

/-- The error-list contribution of scanning one directory. -/
def dirErrors (d : FSDir) : List String :=
  if is_accessible_directory d then [] else [d.path]

/-- The record `scan_single_directory` returns for a directory. -/
def dirRecord (opts : ScanOptions) (d : FSDir) : DirectoryInfo :=
  if !is_accessible_directory d then
    { path := d.path, size_bytes := 0, file_count := 0,
      error_message := some "Permission denied or directory inaccessible" }
  else
    { path := d.path, size_bytes := dirSize opts d, file_count := dirCount opts d,
      error_message := none }

/-- The shared-state effect of scanning one directory. -/
def stApply (opts : ScanOptions) (d : FSDir) (st : ScanState) : ScanState :=
  { st with
    error_directories := st.error_directories ++ dirErrors d,
    total_files := st.total_files + dirCount opts d,
    total_size := st.total_size + dirSize opts d,
    all_files := st.all_files ++ dirFileInfos opts d }

/-- A record meets the `min_size_bytes` inclusion threshold. -/
def meetsMin (opts : ScanOptions) (r : DirectoryInfo) : Bool :=
  (r.size_bytes : Int) ≥ opts.min_size_bytes

theorem get_direct_files_of_inaccessible {d : FSDir}
    (h : is_accessible_directory d = false) : get_direct_files d = [] := by
  cases d with
  | node p a fs ss =>
    cases a with
    | some e => rfl
    | none => simp [is_accessible_directory, FSDir.iterdir, FSDir.access] at h

theorem foldl_scanFileStep (opts : ScanOptions) :
    ∀ (fs : List FSFile) (ts fc : Nat) (st : ScanState),
    fs.foldl (scanFileStep opts) (ts, fc, st) =
      (ts + ((fs.filter (acceptedFile opts)).map safe_get_file_size).sum,
       fc + (fs.filter (acceptedFile opts)).length,
       { st with
          all_files := st.all_files ++ (fs.filter (acceptedFile opts)).map
            (fun f => classify_file_with_info (ContentClassifier.init none) f.path
              (safe_get_file_size f)),
          total_files := st.total_files + (fs.filter (acceptedFile opts)).length,
          total_size := st.total_size +
            ((fs.filter (acceptedFile opts)).map safe_get_file_size).sum }) := by
  intro fs
  induction fs with
  | nil => intro ts fc st; simp
  | cons f fs ihl =>
    intro ts fc st
    by_cases hskip : (extFilterTruthy opts.extension_filter
        && !((opts.extension_filter.getD []).contains (strLower (pathSuffix f.path)))) = true
    · have haccf : acceptedFile opts f = false := by
        unfold acceptedFile; rw [hskip]; rfl
      have hstep : scanFileStep opts (ts, fc, st) f = (ts, fc, st) := by
        unfold scanFileStep; rw [if_pos hskip]
      simp only [List.foldl_cons, hstep, ihl, List.filter_cons, haccf]
      simp
    · have hstep : scanFileStep opts (ts, fc, st) f =
        (ts + safe_get_file_size f, fc + 1,
         { st with
            all_files := st.all_files ++ [classify_file_with_info (ContentClassifier.init none)
              f.path (safe_get_file_size f)],
            total_files := st.total_files + 1,
            total_size := st.total_size + safe_get_file_size f }) := by
        unfold scanFileStep; rw [if_neg hskip]
      rw [Bool.not_eq_true] at hskip
      have haccf : acceptedFile opts f = true := by
        unfold acceptedFile; rw [hskip]; rfl
      simp only [List.foldl_cons, hstep, ihl, List.filter_cons, haccf]
      cases st
      simp [Nat.add_assoc, List.append_assoc]
      all_goals omega

theorem scan_single_directory_eq (opts : ScanOptions) (d : FSDir) (st : ScanState) :
    scan_single_directory opts d st = (dirRecord opts d, stApply opts d st) := by
  by_cases hacc : is_accessible_directory d = true
  · unfold scan_single_directory dirRecord stApply dirErrors
    rw [if_neg (by simp [hacc]), if_neg (by simp [hacc]), if_pos hacc]
    rw [foldl_scanFileStep]
    cases st
    simp [dirSize, dirCount, dirFileInfos, dirAcceptedFiles]
  · simp only [Bool.not_eq_true] at hacc
    unfold scan_single_directory dirRecord stApply dirErrors
    rw [if_pos (by simp [hacc]), if_pos (by simp [hacc]), if_neg (by simp [hacc])]
    have hfc : dirCount opts d = 0 := by
      simp [dirCount, dirAcceptedFiles, get_direct_files_of_inaccessible hacc]
    have hfs : dirSize opts d = 0 := by
      simp [dirSize, dirAcceptedFiles, get_direct_files_of_inaccessible hacc]
    have hfi : dirFileInfos opts d = [] := by
      simp [dirFileInfos, dirAcceptedFiles, get_direct_files_of_inaccessible hacc]
    cases st
    simp [hfc, hfs, hfi]

theorem foldl_stApply (opts : ScanOptions) :
    ∀ (ds : List FSDir) (st : ScanState),
    ds.foldl (fun s d => stApply opts d s) st =
      { st with
        error_directories := st.error_directories ++ ds.flatMap dirErrors,
        total_files := st.total_files + (ds.map (dirCount opts)).sum,
        total_size := st.total_size + (ds.map (dirSize opts)).sum,
        all_files := st.all_files ++ ds.flatMap (dirFileInfos opts) } := by
  intro ds
  induction ds with
  | nil => intro st; simp
  | cons d ds ihl =>
    intro st
    simp only [List.foldl_cons, ihl, List.map_cons, List.sum_cons, List.flatMap_cons]
    unfold stApply
    cases st
    simp [Nat.add_assoc, List.append_assoc]

theorem foldl_scanStep (opts : ScanOptions) :
    ∀ (ds : List FSDir) (rs : List DirectoryInfo) (st : ScanState),
    ds.foldl (scanStep opts) (rs, st) =
      (rs ++ (ds.map (dirRecord opts)).filter (meetsMin opts),
       ds.foldl (fun s d => stApply opts d s) st) := by
  intro ds
  induction ds with
  | nil => intro rs st; simp
  | cons d ds ihl =>
    intro rs st
    have hstep : scanStep opts (rs, st) d =
        (if meetsMin opts (dirRecord opts d) = true then rs ++ [dirRecord opts d] else rs,
         stApply opts d st) := by
      unfold scanStep meetsMin
      rw [scan_single_directory_eq]
      simp
    simp only [List.foldl_cons, hstep, ihl, List.map_cons, List.filter_cons]
    by_cases hm : meetsMin opts (dirRecord opts d) = true
    · rw [if_pos hm, if_pos hm]
      simp [List.append_assoc]
    · rw [if_neg hm, if_neg hm]

/- Dictionary lemmas for the category breakdowns. -/

theorem lookupD_append (d₁ d₂ : List (String × Nat)) (k : String) :
    lookupD (d₁ ++ d₂) k =
      if d₁.any (fun p => p.1 = k) then lookupD d₁ k else lookupD d₂ k := by
  unfold lookupD
  rw [List.find?_append]
  by_cases h : d₁.any (fun p => p.1 = k) = true
  · rw [if_pos h]
    rw [List.any_eq_true] at h
    obtain ⟨x, hx, hpx⟩ := h
    have : (d₁.find? (fun p => decide (p.1 = k))).isSome := by
      rw [List.find?_isSome]
      exact ⟨x, hx, hpx⟩
    cases hf : d₁.find? (fun p => decide (p.1 = k)) with
    | none => rw [hf] at this; simp at this
    | some p => simp [hf]
  · rw [if_neg h]
    rw [Bool.not_eq_true, List.any_eq_false] at h
    have hf : d₁.find? (fun p => decide (p.1 = k)) = none := by
      rw [List.find?_eq_none]
      intro x hx
      simpa using h x hx
    simp [hf]

theorem lookupD_cons (p : String × Nat) (ps : List (String × Nat)) (k : String) :
    lookupD (p :: ps) k = if p.1 = k then p.2 else lookupD ps k := by
  unfold lookupD
  by_cases h : p.1 = k
  · simp [List.find?_cons, h]
  · simp [List.find?_cons, h]

theorem lookupD_eq_zero_of_any_false (k : String) :
    ∀ (d : List (String × Nat)), d.any (fun p => p.1 = k) = false → lookupD d k = 0 := by
  intro d
  induction d with
  | nil => intro h; rfl
  | cons p ps ihp =>
    intro h
    simp only [List.any_cons, Bool.or_eq_false_iff] at h
    rw [lookupD_cons, if_neg (by simpa using h.1)]
    exact ihp (by simpa using h.2)

theorem lookupD_map_bump_ne (c k : String) (v : Nat) (hkc : k ≠ c) :
    ∀ (ps : List (String × Nat)),
    lookupD (ps.map (fun p => if p.1 = c then (p.1, p.2 + v) else p)) k = lookupD ps k := by
  intro ps
  induction ps with
  | nil => rfl
  | cons p ps ihp =>
    rw [List.map_cons]
    by_cases hp : p.1 = c
    · rw [if_pos hp, lookupD_cons, lookupD_cons]
      rw [if_neg (by rw [hp]; exact fun h => hkc h.symm),
          if_neg (by rw [hp]; exact fun h => hkc h.symm)]
      exact ihp
    · rw [if_neg hp, lookupD_cons, lookupD_cons]
      by_cases hpk : p.1 = k
      · rw [if_pos hpk, if_pos hpk]
      · rw [if_neg hpk, if_neg hpk]
        exact ihp

theorem lookupD_map_bump_eq (c : String) (v : Nat) :
    ∀ (ps : List (String × Nat)), ps.any (fun p => p.1 = c) = true →
    lookupD (ps.map (fun p => if p.1 = c then (p.1, p.2 + v) else p)) c = lookupD ps c + v := by
  intro ps
  induction ps with
  | nil => intro h; simp at h
  | cons p ps ihp =>
    intro h
    rw [List.map_cons]
    by_cases hp : p.1 = c
    · rw [if_pos hp, lookupD_cons, lookupD_cons, if_pos hp, if_pos hp]
    · rw [if_neg hp, lookupD_cons, lookupD_cons, if_neg hp, if_neg hp]
      simp only [List.any_cons, Bool.or_eq_true] at h
      rcases h with h | h
      · exact absurd (by simpa using h) hp
      · exact ihp h

theorem lookupD_bumpDict (d : List (String × Nat)) (c k : String) (v : Nat) :
    lookupD (bumpDict d c v) k = lookupD d k + (if k = c then v else 0) := by
  unfold bumpDict
  by_cases hmem : d.any (fun p => p.1 = c) = true
  · rw [if_pos hmem]
    by_cases hkc : k = c
    · subst hkc
      rw [if_pos rfl]
      exact lookupD_map_bump_eq k v d hmem
    · rw [if_neg hkc, Nat.add_zero]
      exact lookupD_map_bump_ne c k v hkc d
  · rw [if_neg hmem]
    rw [Bool.not_eq_true] at hmem
    rw [lookupD_append]
    by_cases hkc : k = c
    · subst hkc
      rw [hmem, if_neg (by simp)]
      rw [if_pos rfl, lookupD_eq_zero_of_any_false k d hmem]
      rw [lookupD_cons, if_pos rfl]
      simp
    · rw [if_neg hkc, Nat.add_zero]
      by_cases hany : d.any (fun p => p.1 = k) = true
      · rw [if_pos hany]
      · rw [if_neg hany, lookupD_cons, if_neg (fun h => hkc h.symm)]
        rw [Bool.not_eq_true] at hany
        rw [lookupD_eq_zero_of_any_false k d hany]
        rfl

theorem valuesSum_append (d₁ d₂ : List (String × Nat)) :
    valuesSum (d₁ ++ d₂) = valuesSum d₁ + valuesSum d₂ := by
  unfold valuesSum; simp

theorem map_bump_of_not_mem (c : String) (v : Nat) :
    ∀ (ps : List (String × Nat)), ps.any (fun p => p.1 = c) = false →
    ps.map (fun p => if p.1 = c then (p.1, p.2 + v) else p) = ps := by
  intro ps
  induction ps with
  | nil => intro _; rfl
  | cons p ps ihp =>
    intro h
    simp only [List.any_cons, Bool.or_eq_false_iff] at h
    rw [List.map_cons, if_neg (by simpa using h.1), ihp (by simpa using h.2)]

theorem valuesSum_map_bump (c : String) (v : Nat) :
    ∀ (ps : List (String × Nat)), (ps.map Prod.fst).Nodup →
    ps.any (fun p => p.1 = c) = true →
    valuesSum (ps.map (fun p => if p.1 = c then (p.1, p.2 + v) else p)) = valuesSum ps + v := by
  intro ps
  induction ps with
  | nil => intro _ h; simp at h
  | cons p ps ihp =>
    intro hnd hmem
    rw [List.map_cons] at hnd
    rw [List.map_cons]
    by_cases hp : p.1 = c
    · rw [if_pos hp]
      have hnotin : p.1 ∉ ps.map Prod.fst := (List.nodup_cons.mp hnd).1
      have htail : ps.any (fun q => q.1 = c) = false := by
        rw [List.any_eq_false]
        intro q hq
        simp only [decide_eq_true_eq]
        intro hqc
        exact hnotin (by rw [hp, ← hqc]; exact List.mem_map_of_mem Prod.fst hq)
      rw [map_bump_of_not_mem c v ps htail]
      unfold valuesSum
      simp only [List.map_cons, List.sum_cons]
      omega
    · rw [if_neg hp]
      have htail : ps.any (fun q => q.1 = c) = true := by
        simp only [List.any_cons, Bool.or_eq_true] at hmem
        rcases hmem with h | h
        · exact absurd (by simpa using h) hp
        · exact h
      unfold valuesSum at ihp ⊢
      rw [List.map_cons, List.map_cons, List.sum_cons, List.sum_cons]
      rw [ihp (List.nodup_cons.mp hnd).2 htail]
      omega

theorem valuesSum_bumpDict (d : List (String × Nat)) (c : String) (v : Nat)
    (hnd : (d.map Prod.fst).Nodup) :
    valuesSum (bumpDict d c v) = valuesSum d + v := by
  unfold bumpDict
  by_cases hmem : d.any (fun p => p.1 = c) = true
  · rw [if_pos hmem]
    exact valuesSum_map_bump c v d hnd hmem
  · rw [if_neg hmem, valuesSum_append]
    rfl

theorem keys_bumpDict_nodup (d : List (String × Nat)) (c : String) (v : Nat)
    (hnd : (d.map Prod.fst).Nodup) : ((bumpDict d c v).map Prod.fst).Nodup := by
  unfold bumpDict
  by_cases hmem : d.any (fun p => p.1 = c) = true
  · rw [if_pos hmem]
    have hkeys : (d.map (fun p => if p.1 = c then (p.1, p.2 + v) else p)).map Prod.fst
        = d.map Prod.fst := by
      rw [List.map_map]
      apply List.map_congr_left
      intro p _
      by_cases hpc : p.1 = c <;> simp [hpc]
    rw [hkeys]
    exact hnd
  · rw [if_neg hmem]
    have hnotin : c ∉ d.map Prod.fst := by
      intro hin
      rw [Bool.not_eq_true, List.any_eq_false] at hmem
      obtain ⟨p, hp, hpc⟩ := List.mem_map.mp hin
      exact absurd hpc (by simpa using hmem p hp)
    simp [List.nodup_append, hnd, hnotin]

theorem foldl_bump_lookupD (g : FileInfo → Nat) :
    ∀ (fs : List FileInfo) (d : List (String × Nat)) (k : String),
    lookupD (fs.foldl (fun s fi => bumpDict s fi.category (g fi)) d) k
      = lookupD d k + ((fs.filter (fun fi => fi.category = k)).map g).sum := by
  intro fs
  induction fs with
  | nil => intro d k; simp
  | cons fi fs ihl =>
    intro d k
    rw [List.foldl_cons, ihl, lookupD_bumpDict, List.filter_cons]
    by_cases h : fi.category = k
    · rw [if_pos (show decide (fi.category = k) = true by simpa using h)]
      rw [if_pos (show k = fi.category from h.symm)]
      simp only [List.map_cons, List.sum_cons]
      omega
    · rw [if_neg (show ¬decide (fi.category = k) = true by simpa using h)]
      rw [if_neg (show ¬k = fi.category from fun hh => h hh.symm)]
      simp

theorem keys_nodup_foldl_bump (g : FileInfo → Nat) :
    ∀ (fs : List FileInfo) (d : List (String × Nat)), (d.map Prod.fst).Nodup →
    ((fs.foldl (fun s fi => bumpDict s fi.category (g fi)) d).map Prod.fst).Nodup := by
  intro fs
  induction fs with
  | nil => intro d h; exact h
  | cons fi fs ihl =>
    intro d h
    rw [List.foldl_cons]
    exact ihl _ (keys_bumpDict_nodup d fi.category (g fi) h)

theorem foldl_bump_valuesSum (g : FileInfo → Nat) :
    ∀ (fs : List FileInfo) (d : List (String × Nat)), (d.map Prod.fst).Nodup →
    valuesSum (fs.foldl (fun s fi => bumpDict s fi.category (g fi)) d)
      = valuesSum d + (fs.map g).sum := by
  intro fs
  induction fs with
  | nil => intro d _; simp
  | cons fi fs ihl =>
    intro d h
    rw [List.foldl_cons, ihl _ (keys_bumpDict_nodup d fi.category (g fi) h),
        valuesSum_bumpDict d fi.category (g fi) h]
    simp
    omega

theorem sum_map_one {α : Type} (l : List α) : (l.map (fun _ => 1)).sum = l.length := by
  induction l with
  | nil => rfl
  | cons x xs ihl => simp [ihl, Nat.add_comm]

theorem lookupD_get_category_statistics (fs : List FileInfo) (k : String) :
    lookupD (get_category_statistics fs) k
      = ((fs.filter (fun fi => fi.category = k)).map (fun fi => fi.size_bytes)).sum := by
  unfold get_category_statistics
  have := foldl_bump_lookupD (fun fi => fi.size_bytes) fs [] k
  simpa [lookupD] using this

theorem lookupD_get_file_count_by_category (fs : List FileInfo) (k : String) :
    lookupD (get_file_count_by_category fs) k
      = (fs.filter (fun fi => fi.category = k)).length := by
  unfold get_file_count_by_category
  have := foldl_bump_lookupD (fun _ => 1) fs [] k
  rw [sum_map_one] at this
  simpa [lookupD] using this

theorem valuesSum_get_category_statistics (fs : List FileInfo) :
    valuesSum (get_category_statistics fs) = (fs.map (fun fi => fi.size_bytes)).sum := by
  unfold get_category_statistics
  have := foldl_bump_valuesSum (fun fi => fi.size_bytes) fs [] (by simp)
  simpa [valuesSum] using this

theorem valuesSum_get_file_count_by_category (fs : List FileInfo) :
    valuesSum (get_file_count_by_category fs) = fs.length := by
  unfold get_file_count_by_category
  have := foldl_bump_valuesSum (fun _ => 1) fs [] (by simp)
  rw [sum_map_one] at this
  simpa [valuesSum] using this

/- Claim theorems. -/

/-- C8: for every path, `is_accessible_directory` returns `false` (and
never raises, being total) when listing fails, `true` when listing
succeeds; `safe_get_file_size` returns `0` (never raising) when `stat`
fails for any reason, and the stat size otherwise. -/
theorem C8_safe_helpers (d : FSDir) (f : FSFile) :
    (∀ e, d.iterdir = .error e → is_accessible_directory d = false)
    ∧ (∀ entries, d.iterdir = .ok entries → is_accessible_directory d = true)
    ∧ (∀ e, f.stat = .error e → safe_get_file_size f = 0)
    ∧ (∀ n, f.stat = .ok n → safe_get_file_size f = n) := by
  refine ⟨?_, ?_, ?_, ?_⟩
  · intro e he
    unfold is_accessible_directory
    rw [he]
  · intro entries he
    unfold is_accessible_directory
    rw [he]
  · intro e he
    unfold safe_get_file_size
    rw [he]
  · intro n hn
    unfold safe_get_file_size
    rw [hn]

/-- C8 witness: the helpers evaluated on a denied directory, an
accessible directory, a vanished file and a healthy file. -/
theorem C8_safe_helpers_witness :
    is_accessible_directory (FSDir.node "/p" (some "denied") [] []) = false
    ∧ is_accessible_directory (FSDir.node "/q" none [] []) = true
    ∧ safe_get_file_size { path := "/q/a.txt", size := 7, statOk := false } = 0
    ∧ safe_get_file_size { path := "/q/b.txt", size := 7, statOk := true } = 7 :=
  ⟨(C8_safe_helpers (FSDir.node "/p" (some "denied") [] [])
      { path := "/q/a.txt", size := 7, statOk := false }).1 "denied" rfl,
   (C8_safe_helpers (FSDir.node "/q" none [] [])
      { path := "/q/b.txt", size := 7, statOk := true }).2.1 ([], []) rfl,
   (C8_safe_helpers (FSDir.node "/p" (some "denied") [] [])
      { path := "/q/a.txt", size := 7, statOk := false }).2.2.1 "OSError" rfl,
   (C8_safe_helpers (FSDir.node "/q" none [] [])
      { path := "/q/b.txt", size := 7, statOk := true }).2.2.2 7 rfl⟩

/-- C4: an inaccessible directory yields a record with zero size and
count and a non-empty error message, appends the path to the shared
error list, enumerates no files (global accumulator and counters
untouched); and every record `scan_single_directory` returns with an
error message set has zero size and count. -/
theorem C4_inaccessible_errors (opts : ScanOptions) (d : FSDir) (st : ScanState) :
    (is_accessible_directory d = false →
      ∃ m, m ≠ ""
        ∧ (scan_single_directory opts d st).1 =
            { path := d.path, size_bytes := 0, file_count := 0, error_message := some m }
        ∧ (scan_single_directory opts d st).2.error_directories
            = st.error_directories ++ [d.path]
        ∧ (scan_single_directory opts d st).2.all_files = st.all_files
        ∧ (scan_single_directory opts d st).2.total_files = st.total_files
        ∧ (scan_single_directory opts d st).2.total_size = st.total_size)
    ∧ ((scan_single_directory opts d st).1.error_message ≠ none →
        (scan_single_directory opts d st).1.size_bytes = 0
        ∧ (scan_single_directory opts d st).1.file_count = 0) := by
  rw [scan_single_directory_eq]
  constructor
  · intro hacc
    refine ⟨"Permission denied or directory inaccessible", by decide, ?_, ?_, ?_, ?_, ?_⟩
    · unfold dirRecord
      rw [if_pos (by simp [hacc])]
    · unfold stApply dirErrors
      rw [if_neg (by simp [hacc])]
    · unfold stApply dirFileInfos dirAcceptedFiles
      rw [get_direct_files_of_inaccessible hacc]
      simp
    · unfold stApply dirCount dirAcceptedFiles
      rw [get_direct_files_of_inaccessible hacc]
      simp
    · unfold stApply dirSize dirAcceptedFiles
      rw [get_direct_files_of_inaccessible hacc]
      simp
  · intro herr
    unfold dirRecord at herr ⊢
    by_cases hacc : is_accessible_directory d = true
    · rw [if_neg (by simp [hacc])] at herr
      simp at herr
    · rw [if_pos (by simpa using hacc)] at herr ⊢
      exact ⟨rfl, rfl⟩

/-- C4 witness: the theorem applied to a concrete denied directory. -/
theorem C4_inaccessible_errors_witness :
    (∃ m, m ≠ ""
      ∧ (scan_single_directory { target_path := "/r" }
            (FSDir.node "/r/x" (some "denied") [] []) DirectoryScanner.initState).1 =
          { path := "/r/x", size_bytes := 0, file_count := 0, error_message := some m }
      ∧ (scan_single_directory { target_path := "/r" }
            (FSDir.node "/r/x" (some "denied") [] []) DirectoryScanner.initState).2.error_directories
          = DirectoryScanner.initState.error_directories ++ ["/r/x"]
      ∧ (scan_single_directory { target_path := "/r" }
            (FSDir.node "/r/x" (some "denied") [] []) DirectoryScanner.initState).2.all_files
          = DirectoryScanner.initState.all_files
      ∧ (scan_single_directory { target_path := "/r" }
            (FSDir.node "/r/x" (some "denied") [] []) DirectoryScanner.initState).2.total_files
          = DirectoryScanner.initState.total_files
      ∧ (scan_single_directory { target_path := "/r" }
            (FSDir.node "/r/x" (some "denied") [] []) DirectoryScanner.initState).2.total_size
          = DirectoryScanner.initState.total_size)
    ∧ ((scan_single_directory { target_path := "/r" }
          (FSDir.node "/r/x" (some "denied") [] []) DirectoryScanner.initState).1.size_bytes = 0
      ∧ (scan_single_directory { target_path := "/r" }
          (FSDir.node "/r/x" (some "denied") [] []) DirectoryScanner.initState).1.file_count = 0) :=
  ⟨(C4_inaccessible_errors { target_path := "/r" }
      (FSDir.node "/r/x" (some "denied") [] []) DirectoryScanner.initState).1 rfl,
   (C4_inaccessible_errors { target_path := "/r" }
      (FSDir.node "/r/x" (some "denied") [] []) DirectoryScanner.initState).2 (by decide)⟩

/-- C2: for every accessible directory the returned record's
`size_bytes` is the sum of the safe sizes of exactly the direct files
passing the extension filter, `file_count` is their number, only those
files are classified into the accumulator, and the result is wholly
independent of the subdirectories' contents. -/
theorem C2_direct_only_sizing (opts : ScanOptions) (p : String) (a : Option String)
    (fs : List FSFile) (ss ss' : List FSDir) (st : ScanState)
    (hacc : is_accessible_directory (FSDir.node p a fs ss) = true) :
    (scan_single_directory opts (FSDir.node p a fs ss) st).1.size_bytes
        = ((fs.filter (acceptedFile opts)).map safe_get_file_size).sum
    ∧ (scan_single_directory opts (FSDir.node p a fs ss) st).1.file_count
        = (fs.filter (acceptedFile opts)).length
    ∧ (scan_single_directory opts (FSDir.node p a fs ss) st).1.error_message = none
    ∧ (scan_single_directory opts (FSDir.node p a fs ss) st).2.all_files
        = st.all_files ++ (fs.filter (acceptedFile opts)).map
            (fun f => classify_file_with_info (ContentClassifier.init none) f.path
              (safe_get_file_size f))
    ∧ scan_single_directory opts (FSDir.node p a fs ss') st
        = scan_single_directory opts (FSDir.node p a fs ss) st := by
  have ha : a = none := by
    cases a with
    | none => rfl
    | some e => simp [is_accessible_directory, FSDir.iterdir, FSDir.access] at hacc
  subst ha
  have hgdf : get_direct_files (FSDir.node p none fs ss) = fs := rfl
  have hgdf' : get_direct_files (FSDir.node p none fs ss') = fs := rfl
  have hacc' : is_accessible_directory (FSDir.node p none fs ss') = true := rfl
  rw [scan_single_directory_eq, scan_single_directory_eq]
  refine ⟨?_, ?_, ?_, ?_, ?_⟩
  · unfold dirRecord
    rw [if_neg (by simp [hacc])]
    unfold dirSize dirAcceptedFiles
    rw [hgdf]
  · unfold dirRecord
    rw [if_neg (by simp [hacc])]
    unfold dirCount dirAcceptedFiles
    rw [hgdf]
  · unfold dirRecord
    rw [if_neg (by simp [hacc])]
  · unfold stApply dirFileInfos dirAcceptedFiles
    rw [hgdf]
  · unfold dirRecord stApply dirErrors dirSize dirCount dirFileInfos dirAcceptedFiles
    rw [hgdf, hgdf', hacc, hacc']
    rfl

/-- C2 witness: a directory with one accepted `.txt` file, one filtered
`.jpg` file and a populated subdirectory, under filter to `.txt`. -/
theorem C2_direct_only_sizing_witness :
    (scan_single_directory { target_path := "/r", extension_filter := some [".txt"] }
        (FSDir.node "/r" none
          [{ path := "/r/a.txt", size := 5, statOk := true },
           { path := "/r/b.jpg", size := 7, statOk := true }]
          [FSDir.node "/r/sub" none [{ path := "/r/sub/c.txt", size := 11, statOk := true }] []])
        DirectoryScanner.initState).1.size_bytes = 5
    ∧ (scan_single_directory { target_path := "/r", extension_filter := some [".txt"] }
        (FSDir.node "/r" none
          [{ path := "/r/a.txt", size := 5, statOk := true },
           { path := "/r/b.jpg", size := 7, statOk := true }]
          [FSDir.node "/r/sub" none [{ path := "/r/sub/c.txt", size := 11, statOk := true }] []])
        DirectoryScanner.initState).1.file_count = 1 := by
  have h := C2_direct_only_sizing { target_path := "/r", extension_filter := some [".txt"] }
    "/r" none
    [{ path := "/r/a.txt", size := 5, statOk := true },
     { path := "/r/b.jpg", size := 7, statOk := true }]
    [FSDir.node "/r/sub" none [{ path := "/r/sub/c.txt", size := 11, statOk := true }] []]
    [] DirectoryScanner.initState rfl
  refine ⟨?_, ?_⟩
  · rw [h.1]; decide
  · rw [h.2.1]; decide

/-- C10: an empty extension-filter set behaves exactly like no filter:
`ScanOptions.post_init` skips normalization for it (both the empty set
and `None` are falsy), and scanning with it equals scanning with no
filter at all, so every direct file contributes to size, count and
classification. -/
theorem C10_empty_filter_like_none (opts : ScanOptions) (d : FSDir) (st : ScanState)
    (target_exists target_is_dir : Bool)
    (h : opts.extension_filter = some []) :
    (∀ o', ScanOptions.post_init target_exists target_is_dir opts = .ok o' →
      o'.extension_filter = some [])
    ∧ scan_single_directory opts d st
        = scan_single_directory { opts with extension_filter := none } d st := by
  constructor
  · intro o' ho
    unfold ScanOptions.post_init at ho
    by_cases h1 : !target_exists
    · rw [if_pos h1] at ho; cases ho
    · rw [if_neg h1] at ho
      by_cases h2 : !target_is_dir
      · rw [if_pos h2] at ho; cases ho
      · rw [if_neg h2] at ho
        by_cases h3 : opts.top_count ≤ 0
        · rw [if_pos h3] at ho; cases ho
        · rw [if_neg h3] at ho
          by_cases h4 : !(opts.output_format = "text" || opts.output_format = "csv"
              || opts.output_format = "json")
          · rw [if_pos h4] at ho; cases ho
          · rw [if_neg h4] at ho
            rw [if_neg (by rw [h]; decide)] at ho
            cases ho
            exact h
  · have hfa : acceptedFile opts = acceptedFile { opts with extension_filter := none } := by
      funext f
      unfold acceptedFile extFilterTruthy
      rw [h]
      rfl
    rw [scan_single_directory_eq, scan_single_directory_eq]
    unfold dirRecord stApply dirSize dirCount dirFileInfos dirAcceptedFiles
    rw [hfa]

/-- C10 witness: the theorem applied at a concrete configuration with
`extension_filter = some []` and a one-file directory. -/
theorem C10_empty_filter_like_none_witness :
    (∀ o', ScanOptions.post_init true true
        { target_path := "/r", extension_filter := some [] } = .ok o' →
      o'.extension_filter = some [])
    ∧ scan_single_directory { target_path := "/r", extension_filter := some [] }
        (FSDir.node "/r" none [{ path := "/r/a.txt", size := 5, statOk := true }] [])
        DirectoryScanner.initState
      = scan_single_directory
          { ({ target_path := "/r", extension_filter := some [] } : ScanOptions)
            with extension_filter := none }
          (FSDir.node "/r" none [{ path := "/r/a.txt", size := 5, statOk := true }] [])
          DirectoryScanner.initState :=
  C10_empty_filter_like_none { target_path := "/r", extension_filter := some [] }
    (FSDir.node "/r" none [{ path := "/r/a.txt", size := 5, statOk := true }] [])
    DirectoryScanner.initState true true rfl

/-- C6 counterexample: `ScanOptions.post_init` accepts a negative
`min_size_bytes` — construction succeeds even though the claim says it
must fail; no validation of that field exists in `__post_init__`. -/
theorem C6_counterexample :
    (ScanOptions.post_init true true
        { target_path := "/data", min_size_bytes := -1 }).isOk = true
    ∧ ({ target_path := "/data", min_size_bytes := -1 } : ScanOptions).min_size_bytes < 0 := by
  constructor
  · decide
  · decide

/-- C6 (amended): `ScanOptions` construction fails atomically (an error
is returned and no options value exists) iff the target path does not
exist, is not a directory, `top_count` is not positive, or the output
format is not one of text/csv/json — and succeeds otherwise;
`min_size_bytes` is not validated, so negative values are accepted. -/
theorem C6_validation_atomic (target_exists target_is_dir : Bool) (o : ScanOptions) :
    (∃ o', ScanOptions.post_init target_exists target_is_dir o = .ok o')
      ↔ (target_exists = true ∧ target_is_dir = true ∧ 0 < o.top_count
          ∧ (o.output_format = "text" ∨ o.output_format = "csv"
              ∨ o.output_format = "json")) := by
  constructor
  · rintro ⟨o', ho⟩
    unfold ScanOptions.post_init at ho
    by_cases h1 : !target_exists
    · rw [if_pos h1] at ho; cases ho
    · rw [if_neg h1] at ho
      by_cases h2 : !target_is_dir
      · rw [if_pos h2] at ho; cases ho
      · rw [if_neg h2] at ho
        by_cases h3 : o.top_count ≤ 0
        · rw [if_pos h3] at ho; cases ho
        · rw [if_neg h3] at ho
          by_cases h4 : !(o.output_format = "text" || o.output_format = "csv"
              || o.output_format = "json")
          · rw [if_pos h4] at ho; cases ho
          · have hb : (o.output_format = "text" || o.output_format = "csv"
                || o.output_format = "json") = true := by
              revert h4
              cases hx : (o.output_format = "text" || o.output_format = "csv"
                || o.output_format = "json") <;> simp
            refine ⟨by simpa using h1, by simpa using h2, by omega,
              by simpa [or_assoc] using hb⟩
  · rintro ⟨he, hd, htc, hof⟩
    unfold ScanOptions.post_init
    rw [if_neg (by simp [he]), if_neg (by simp [hd]), if_neg (by omega),
        if_neg (by rcases hof with h | h | h <;> simp [h])]
    by_cases h5 : extFilterTruthy o.extension_filter = true
    · rw [if_pos h5]; exact ⟨_, rfl⟩
    · rw [if_neg h5]; exact ⟨_, rfl⟩

/-- C6 witness: a fully valid configuration (existing directory target,
positive top count, text format) constructs successfully, and an invalid
format is rejected. -/
theorem C6_validation_atomic_witness :
    (∃ o', ScanOptions.post_init true true { target_path := "/data" } = .ok o')
    ∧ ¬(∃ o', ScanOptions.post_init true true
        { target_path := "/data", output_format := "xml" } = .ok o') :=
  ⟨(C6_validation_atomic true true { target_path := "/data" }).mpr
      ⟨rfl, rfl, by decide, Or.inl rfl⟩,
   fun h => by
    have := (C6_validation_atomic true true
      { target_path := "/data", output_format := "xml" }).mp h
    rcases this.2.2.2 with hh | hh | hh <;> exact absurd hh (by decide)⟩

/-- C7 counterexample: with a user-registered custom category "scripts"
containing ".py" — an extension also in the built-in "code" set —
`classify_file` returns the built-in "code", not "scripts": custom
categories with fresh names do not take precedence over built-ins. -/
theorem C7_counterexample :
    classify_file (ContentClassifier.init none) "/a/tool.py" = "code"
    ∧ classify_file (add_custom_category (ContentClassifier.init none) "scripts" [".py"])
        "/a/tool.py" = "code"
    ∧ ("code" : String) ≠ "scripts" := by
  refine ⟨by decide, by decide, by decide⟩

/-- C7 (amended): `classify_file` lowercases the file's extension and
returns the first category, in table insertion order, whose set contains
it ("other" when none does); but `dict.update`/assignment appends a
custom category with a fresh name after the built-ins, so when an
extension appears both in a built-in set and in such a custom set, the
built-in category wins (custom categories only replace a built-in when
they reuse its exact name). -/
theorem C7_first_match_order (cats : List (String × List String))
    (path name cname : String) (exts cexts : List String)
    (pre post : List (String × List String)) :
    (cats = pre ++ (name, exts) :: post →
      strLower (pathSuffix path) ∈ exts →
      (∀ q ∈ pre, strLower (pathSuffix path) ∉ q.2) →
      classify_file cats path = name)
    ∧ ((∀ q ∈ cats, strLower (pathSuffix path) ∉ q.2) →
        classify_file cats path = "other")
    ∧ (cname ∉ CATEGORY_MAPPINGS.map Prod.fst →
        ContentClassifier.init (some [(cname, cexts)])
          = CATEGORY_MAPPINGS ++ [(cname, cexts)])
    ∧ (cname ∉ CATEGORY_MAPPINGS.map Prod.fst →
        (∃ q ∈ CATEGORY_MAPPINGS, strLower (pathSuffix path) ∈ q.2) →
        classify_file (ContentClassifier.init (some [(cname, cexts)])) path
          = classify_file CATEGORY_MAPPINGS path) := by
  have hfresh_upd : cname ∉ CATEGORY_MAPPINGS.map Prod.fst →
      ContentClassifier.init (some [(cname, cexts)])
        = CATEGORY_MAPPINGS ++ [(cname, cexts)] := by
    intro hfresh
    have hinit : ContentClassifier.init (some [(cname, cexts)])
        = dictUpdate CATEGORY_MAPPINGS cname cexts := rfl
    rw [hinit]
    unfold dictUpdate
    rw [if_neg ?hcond]
    case hcond =>
      intro hany
      rw [List.any_eq_true] at hany
      obtain ⟨q, hq, hqc⟩ := hany
      have hq1 : q.1 = cname := by simpa using hqc
      exact hfresh (by
        rw [← hq1]
        exact List.mem_map_of_mem Prod.fst hq)
  refine ⟨?_, ?_, hfresh_upd, ?_⟩
  · intro hcats hmem hpre
    simp only [classify_file]
    subst hcats
    have hprenone : pre.find?
        (fun p => p.2.contains (strLower (pathSuffix path))) = none := by
      rw [List.find?_eq_none]
      intro q hq
      simpa using hpre q hq
    rw [List.find?_append, hprenone]
    rw [List.find?_cons_of_pos _ (by simpa using hmem)]
    rfl
  · intro hnone
    simp only [classify_file]
    have hn : cats.find?
        (fun p => p.2.contains (strLower (pathSuffix path))) = none := by
      rw [List.find?_eq_none]
      intro q hq
      simpa using hnone q hq
    rw [hn]
  · intro hfresh hmatch
    rw [hfresh_upd hfresh]
    simp only [classify_file]
    rw [List.find?_append]
    obtain ⟨q, hq, hqm⟩ := hmatch
    have hsome : (CATEGORY_MAPPINGS.find?
        (fun p => p.2.contains (strLower (pathSuffix path)))).isSome := by
      rw [List.find?_isSome]
      exact ⟨q, hq, by simpa using hqm⟩
    cases hf : CATEGORY_MAPPINGS.find?
        (fun p => p.2.contains (strLower (pathSuffix path))) with
    | none => rw [hf] at hsome; simp at hsome
    | some r => simp [hf]

/-- C7 witness: first-match on a two-category table sharing an
extension, the "other" default, and built-in precedence over a fresh
custom category for ".py". -/
theorem C7_first_match_order_witness :
    classify_file [("a", [".x"]), ("b", [".x"])] "/f.x" = "a"
    ∧ classify_file [("a", [".y"])] "/f.x" = "other"
    ∧ ContentClassifier.init (some [("scripts", [".py"])])
        = CATEGORY_MAPPINGS ++ [("scripts", [".py"])]
    ∧ classify_file (ContentClassifier.init (some [("scripts", [".py"])])) "/a/tool.py"
        = classify_file CATEGORY_MAPPINGS "/a/tool.py" :=
  ⟨(C7_first_match_order [("a", [".x"]), ("b", [".x"])] "/f.x" "a" "c" [".x"] []
      [] [("b", [".x"])]).1 rfl (by decide) (by decide),
   (C7_first_match_order [("a", [".y"])] "/f.x" "a" "c" [".y"] [] [] []).2.1 (by decide),
   (C7_first_match_order [] "/a/tool.py" "n" "scripts" [] [".py"] [] []).2.2.1 (by decide),
   (C7_first_match_order [] "/a/tool.py" "n" "scripts" [] [".py"] [] []).2.2.2
      (by decide) (by decide)⟩

theorem gad_self_mem (ih : Bool) (d : FSDir) : d ∈ get_all_directories ih d := by
  rw [get_all_directories_eq]
  exact List.mem_cons_self d _

theorem gad_mem_trans {ih : Bool} {y s d : FSDir}
    (hy : y ∈ get_all_directories ih s) (hs : s ∈ get_subdirectories d ih) :
    y ∈ get_all_directories ih d := by
  rw [get_all_directories_eq]
  exact List.mem_cons_of_mem d (List.mem_flatMap.mpr ⟨s, hs, hy⟩)

theorem not_hidden_of_mem_get_subdirectories {s d : FSDir}
    (hs : s ∈ get_subdirectories d false) :
    is_hidden_directory_cross_platform s.path = false := by
  cases d with
  | node p a fs ss =>
    unfold get_subdirectories FSDir.iterdir FSDir.access at hs
    cases a with
    | some e => simp at hs
    | none =>
      simp only [FSDir.subdirs] at hs
      have hpred := List.of_mem_filter hs
      simpa using hpred

theorem gad_hidden_aux : ∀ (n : Nat) (d : FSDir), sizeOf d = n →
    ∀ x ∈ get_all_directories false d,
    is_hidden_directory_cross_platform x.path = true → x = d := by
  intro n
  induction n using Nat.strong_induction_on with
  | _ n IH =>
    intro d hdn x hx hhid
    rw [get_all_directories_eq] at hx
    rcases List.mem_cons.mp hx with h | h
    · exact h
    · obtain ⟨s, hs, hys⟩ := List.mem_flatMap.mp h
      have hsz : sizeOf s < n := by
        rw [← hdn]; exact sizeOf_lt_of_mem_get_subdirectories hs
      have hxs : x = s := IH (sizeOf s) hsz s rfl x hys hhid
      exfalso
      rw [hxs] at hhid
      rw [not_hidden_of_mem_get_subdirectories hs] at hhid
      cases hhid

theorem gad_infix_aux (ih : Bool) : ∀ (n : Nat) (d : FSDir), sizeOf d = n →
    ∀ x ∈ get_all_directories ih d,
    ∃ pre post, get_all_directories ih d = pre ++ get_all_directories ih x ++ post := by
  intro n
  induction n using Nat.strong_induction_on with
  | _ n IH =>
    intro d hdn x hx
    rw [get_all_directories_eq] at hx
    rcases List.mem_cons.mp hx with h | h
    · subst h
      exact ⟨[], [], by simp⟩
    · obtain ⟨s, hs, hys⟩ := List.mem_flatMap.mp h
      have hsz : sizeOf s < n := by
        rw [← hdn]; exact sizeOf_lt_of_mem_get_subdirectories hs
      obtain ⟨pre', post', hsplit⟩ := IH (sizeOf s) hsz s rfl x hys
      obtain ⟨l₁, l₂, hsubs⟩ := List.append_of_mem hs
      refine ⟨d :: (l₁.flatMap (get_all_directories ih) ++ pre'),
        post' ++ l₂.flatMap (get_all_directories ih), ?_⟩
      rw [get_all_directories_eq, hsubs]
      simp only [List.flatMap_append, List.flatMap_cons, hsplit]
      simp [List.append_assoc]

theorem gad_parent_aux : ∀ (n : Nat) (d : FSDir), sizeOf d = n →
    ∀ x ∈ get_all_directories false d,
    x = d ∨ ∃ p, p ∈ get_all_directories false d ∧ x ∈ get_subdirectories p false := by
  intro n
  induction n using Nat.strong_induction_on with
  | _ n IH =>
    intro d hdn x hx
    rw [get_all_directories_eq] at hx
    rcases List.mem_cons.mp hx with h | h
    · exact Or.inl h
    · obtain ⟨s, hs, hys⟩ := List.mem_flatMap.mp h
      have hsz : sizeOf s < n := by
        rw [← hdn]; exact sizeOf_lt_of_mem_get_subdirectories hs
      rcases IH (sizeOf s) hsz s rfl x hys with hxs | ⟨p, hp, hxp⟩
      · exact Or.inr ⟨d, gad_self_mem false d, hxs ▸ hs⟩
      · exact Or.inr ⟨p, gad_mem_trans hp hs, hxp⟩

/-- C3: the traversal yields every reachable directory in depth-first
pre-order — the root always first regardless of its own hidden status,
and every visited directory's whole traversal as a contiguous block (so
each directory precedes all of its children); with `include_hidden`
false, hidden directories other than the root never appear, and every
non-root yielded directory is reached via a visible (hidden-filtered)
edge from another yielded directory, so the traversal never descends
into a filtered-out hidden subtree. -/
theorem C3_traversal_preorder (root : FSDir) :
    (∀ ih : Bool, (get_all_directories ih root).head? = some root)
    ∧ (∀ x ∈ get_all_directories false root,
        is_hidden_directory_cross_platform x.path = true → x = root)
    ∧ (∀ (ih : Bool), ∀ x ∈ get_all_directories ih root,
        ∃ pre post, get_all_directories ih root
          = pre ++ get_all_directories ih x ++ post)
    ∧ (∀ x ∈ get_all_directories false root,
        x = root ∨ ∃ p, p ∈ get_all_directories false root
          ∧ x ∈ get_subdirectories p false) := by
  refine ⟨?_, ?_, ?_, ?_⟩
  · intro ih
    rw [get_all_directories_eq]
    rfl
  · exact gad_hidden_aux (sizeOf root) root rfl
  · intro ih
    exact gad_infix_aux ih (sizeOf root) root rfl
  · exact gad_parent_aux (sizeOf root) root rfl

/-- C3 witness: the theorem applied to a hidden root with a hidden child
(whose subtree holds a grandchild) and a visible child. -/
theorem C3_traversal_preorder_witness :
    (get_all_directories false
      (FSDir.node "/.r" none []
        [FSDir.node "/.r/.h" none [] [FSDir.node "/.r/.h/deep" none [] []],
         FSDir.node "/.r/v" none [] []])).head?
      = some (FSDir.node "/.r" none []
        [FSDir.node "/.r/.h" none [] [FSDir.node "/.r/.h/deep" none [] []],
         FSDir.node "/.r/v" none [] []])
    ∧ (FSDir.node "/.r" none []
        [FSDir.node "/.r/.h" none [] [FSDir.node "/.r/.h/deep" none [] []],
         FSDir.node "/.r/v" none [] []]
        = FSDir.node "/.r" none []
        [FSDir.node "/.r/.h" none [] [FSDir.node "/.r/.h/deep" none [] []],
         FSDir.node "/.r/v" none [] []])
    ∧ (∃ pre post, get_all_directories false
        (FSDir.node "/.r" none []
          [FSDir.node "/.r/.h" none [] [FSDir.node "/.r/.h/deep" none [] []],
           FSDir.node "/.r/v" none [] []])
        = pre ++ get_all_directories false
          (FSDir.node "/.r" none []
            [FSDir.node "/.r/.h" none [] [FSDir.node "/.r/.h/deep" none [] []],
             FSDir.node "/.r/v" none [] []]) ++ post) := by
  have h := C3_traversal_preorder
    (FSDir.node "/.r" none []
      [FSDir.node "/.r/.h" none [] [FSDir.node "/.r/.h/deep" none [] []],
       FSDir.node "/.r/v" none [] []])
  refine ⟨h.1 false, ?_, ?_⟩
  · exact h.2.1 _ (gad_self_mem false _) (by decide)
  · exact h.2.2.1 false _ (gad_self_mem false _)

theorem scan_directories_sequential_eq (opts : ScanOptions) (root : FSDir) (st : ScanState) :
    scan_directories_sequential opts root st =
      (((get_all_directories opts.include_hidden root).map (dirRecord opts)).filter
          (meetsMin opts),
       { st with
         total_directories := st.total_directories
           + (get_all_directories opts.include_hidden root).length,
         error_directories := st.error_directories
           ++ (get_all_directories opts.include_hidden root).flatMap dirErrors,
         total_files := st.total_files
           + ((get_all_directories opts.include_hidden root).map (dirCount opts)).sum,
         total_size := st.total_size
           + ((get_all_directories opts.include_hidden root).map (dirSize opts)).sum,
         all_files := st.all_files
           ++ (get_all_directories opts.include_hidden root).flatMap (dirFileInfos opts) }) := by
  unfold scan_directories_sequential
  rw [foldl_scanStep, foldl_stApply]
  cases st
  simp

theorem scan_directories_parallel_eq (opts : ScanOptions) (root : FSDir)
    (order : List FSDir) (st : ScanState) :
    scan_directories_parallel opts root order st =
      ((order.map (dirRecord opts)).filter (meetsMin opts),
       { st with
         total_directories := st.total_directories
           + (get_all_directories opts.include_hidden root).length,
         error_directories := st.error_directories ++ order.flatMap dirErrors,
         total_files := st.total_files + (order.map (dirCount opts)).sum,
         total_size := st.total_size + (order.map (dirSize opts)).sum,
         all_files := st.all_files ++ order.flatMap (dirFileInfos opts) }) := by
  unfold scan_directories_parallel
  rw [foldl_scanStep, foldl_stApply]
  cases st
  simp

/-- C5: with threshold `T = min_size_bytes`, every record returned by
either execution strategy has `size_bytes >= T`; a directory whose
record falls below `T` is absent from the returned list; but every
enumerated directory — below the threshold or not — is still scanned and
its accepted files still populate the global `total_files` and
`total_size` accumulators. -/
theorem C5_threshold_filter (opts : ScanOptions) (root : FSDir) (order : List FSDir)
    (hperm : order.Perm (get_all_directories opts.include_hidden root)) :
    (∀ r ∈ (scan_directories_sequential opts root DirectoryScanner.initState).1,
        (r.size_bytes : Int) ≥ opts.min_size_bytes)
    ∧ (∀ r ∈ (scan_directories_parallel opts root order DirectoryScanner.initState).1,
        (r.size_bytes : Int) ≥ opts.min_size_bytes)
    ∧ (∀ d ∈ get_all_directories opts.include_hidden root,
        ((dirRecord opts d).size_bytes : Int) < opts.min_size_bytes →
          dirRecord opts d ∉
            (scan_directories_sequential opts root DirectoryScanner.initState).1)
    ∧ (scan_directories_sequential opts root DirectoryScanner.initState).2.total_files
        = ((get_all_directories opts.include_hidden root).map (dirCount opts)).sum
    ∧ (scan_directories_sequential opts root DirectoryScanner.initState).2.total_size
        = ((get_all_directories opts.include_hidden root).map (dirSize opts)).sum := by
  have hmem : ∀ (l : List DirectoryInfo) (r : DirectoryInfo),
      r ∈ l.filter (meetsMin opts) → (r.size_bytes : Int) ≥ opts.min_size_bytes := by
    intro l r hr
    have := List.of_mem_filter hr
    unfold meetsMin at this
    simpa using this
  refine ⟨?_, ?_, ?_, ?_, ?_⟩
  · intro r hr
    rw [scan_directories_sequential_eq] at hr
    exact hmem _ r hr
  · intro r hr
    rw [scan_directories_parallel_eq] at hr
    exact hmem _ r hr
  · intro d _ hlt hcontra
    rw [scan_directories_sequential_eq] at hcontra
    have := hmem _ _ hcontra
    omega
  · rw [scan_directories_sequential_eq]
    simp [DirectoryScanner.initState]
  · rw [scan_directories_sequential_eq]
    simp [DirectoryScanner.initState]

/-- C5 witness: the theorem applied to a root holding one 5-byte file
with a 10-byte threshold (sequential and parallel with the enumeration
order itself as completion order): the totals still count the file. -/
theorem C5_threshold_filter_witness :
    (scan_directories_sequential { target_path := "/r", min_size_bytes := 10 }
        (FSDir.node "/r" none [{ path := "/r/a.txt", size := 5, statOk := true }] [])
        DirectoryScanner.initState).2.total_size
      = ((get_all_directories true
          (FSDir.node "/r" none [{ path := "/r/a.txt", size := 5, statOk := true }] [])).map
            (dirSize { target_path := "/r", min_size_bytes := 10 })).sum :=
  (C5_threshold_filter { target_path := "/r", min_size_bytes := 10 }
    (FSDir.node "/r" none [{ path := "/r/a.txt", size := 5, statOk := true }] [])
    (get_all_directories true
      (FSDir.node "/r" none [{ path := "/r/a.txt", size := 5, statOk := true }] []))
    (List.Perm.refl _)).2.2.2.2

theorem sum_sizes_dirFileInfos (opts : ScanOptions) :
    ∀ (ds : List FSDir),
    ((ds.flatMap (dirFileInfos opts)).map (fun fi => fi.size_bytes)).sum
      = (ds.map (dirSize opts)).sum := by
  intro ds
  induction ds with
  | nil => rfl
  | cons d ds ihl =>
    rw [List.flatMap_cons, List.map_append, List.sum_append, ihl,
        List.map_cons, List.sum_cons]
    congr 1
    unfold dirFileInfos dirSize
    rw [List.map_map]
    rfl

theorem length_flatMap_dirFileInfos (opts : ScanOptions) :
    ∀ (ds : List FSDir),
    (ds.flatMap (dirFileInfos opts)).length = (ds.map (dirCount opts)).sum := by
  intro ds
  induction ds with
  | nil => rfl
  | cons d ds ihl =>
    rw [List.flatMap_cons, List.length_append, ihl, List.map_cons, List.sum_cons]
    congr 1
    unfold dirFileInfos dirCount
    rw [List.length_map]

/-- C9: after a completed scan (either mode) with no extension filter
active, the statistics built by `create_scan_statistics` conserve the
accumulated totals: the category-breakdown values sum to
`total_size_bytes` and the per-category file counts sum to
`total_files`. -/
theorem C9_category_conservation (opts : ScanOptions) (root : FSDir) (order : List FSDir)
    (hfilter : extFilterTruthy opts.extension_filter = false)
    (hperm : order.Perm (get_all_directories opts.include_hidden root)) :
    (valuesSum (create_scan_statistics
        (scan_directories_sequential opts root DirectoryScanner.initState).2).category_breakdown
      = (create_scan_statistics
        (scan_directories_sequential opts root DirectoryScanner.initState).2).total_size_bytes)
    ∧ (valuesSum (create_scan_statistics
        (scan_directories_sequential opts root DirectoryScanner.initState).2).file_count_by_category
      = (create_scan_statistics
        (scan_directories_sequential opts root DirectoryScanner.initState).2).total_files)
    ∧ (valuesSum (create_scan_statistics
        (scan_directories_parallel opts root order DirectoryScanner.initState).2).category_breakdown
      = (create_scan_statistics
        (scan_directories_parallel opts root order DirectoryScanner.initState).2).total_size_bytes)
    ∧ (valuesSum (create_scan_statistics
        (scan_directories_parallel opts root order DirectoryScanner.initState).2).file_count_by_category
      = (create_scan_statistics
        (scan_directories_parallel opts root order DirectoryScanner.initState).2).total_files) := by
  refine ⟨?_, ?_, ?_, ?_⟩
  · rw [scan_directories_sequential_eq]
    unfold create_scan_statistics
    rw [valuesSum_get_category_statistics]
    simp [DirectoryScanner.initState, sum_sizes_dirFileInfos]
  · rw [scan_directories_sequential_eq]
    unfold create_scan_statistics
    rw [valuesSum_get_file_count_by_category]
    simp [DirectoryScanner.initState]
    congr 1
    apply List.map_congr_left
    intro d _
    unfold dirFileInfos dirCount
    simp [Function.comp]
  · rw [scan_directories_parallel_eq]
    unfold create_scan_statistics
    rw [valuesSum_get_category_statistics]
    simp [DirectoryScanner.initState, sum_sizes_dirFileInfos]
  · rw [scan_directories_parallel_eq]
    unfold create_scan_statistics
    rw [valuesSum_get_file_count_by_category]
    simp [DirectoryScanner.initState]
    congr 1
    apply List.map_congr_left
    intro d _
    unfold dirFileInfos dirCount
    simp [Function.comp]

/-- C9 witness: the theorem applied with no extension filter to a root
with one classified file, the enumeration order serving as completion
order. -/
theorem C9_category_conservation_witness :
    valuesSum (create_scan_statistics
        (scan_directories_sequential { target_path := "/r" }
          (FSDir.node "/r" none [{ path := "/r/a.txt", size := 5, statOk := true }] [])
          DirectoryScanner.initState).2).category_breakdown
      = (create_scan_statistics
        (scan_directories_sequential { target_path := "/r" }
          (FSDir.node "/r" none [{ path := "/r/a.txt", size := 5, statOk := true }] [])
          DirectoryScanner.initState).2).total_size_bytes :=
  (C9_category_conservation { target_path := "/r" }
    (FSDir.node "/r" none [{ path := "/r/a.txt", size := 5, statOk := true }] [])
    (get_all_directories true
      (FSDir.node "/r" none [{ path := "/r/a.txt", size := 5, statOk := true }] []))
    rfl (List.Perm.refl _)).1

/-- C1: for a fixed tree and configuration, the parallel strategy — for
every completion order, i.e. every permutation of the materialized
enumeration — produces the same unordered multiset of
`(path, size_bytes, file_count)` triples as the sequential strategy,
identical `total_directories`/`total_files`/`total_size` accumulators,
and identical per-category size and count breakdowns. -/
theorem C1_mode_equivalence (opts : ScanOptions) (root : FSDir) (order : List FSDir)
    (hperm : order.Perm (get_all_directories opts.include_hidden root)) :
    ((scan_directories_parallel opts root order DirectoryScanner.initState).1.map
        (fun r => (r.path, r.size_bytes, r.file_count))).Perm
      ((scan_directories_sequential opts root DirectoryScanner.initState).1.map
        (fun r => (r.path, r.size_bytes, r.file_count)))
    ∧ (scan_directories_parallel opts root order DirectoryScanner.initState).2.total_directories
      = (scan_directories_sequential opts root DirectoryScanner.initState).2.total_directories
    ∧ (scan_directories_parallel opts root order DirectoryScanner.initState).2.total_files
      = (scan_directories_sequential opts root DirectoryScanner.initState).2.total_files
    ∧ (scan_directories_parallel opts root order DirectoryScanner.initState).2.total_size
      = (scan_directories_sequential opts root DirectoryScanner.initState).2.total_size
    ∧ (∀ k, lookupD (create_scan_statistics
          (scan_directories_parallel opts root order
            DirectoryScanner.initState).2).category_breakdown k
        = lookupD (create_scan_statistics
          (scan_directories_sequential opts root
            DirectoryScanner.initState).2).category_breakdown k)
    ∧ (∀ k, lookupD (create_scan_statistics
          (scan_directories_parallel opts root order
            DirectoryScanner.initState).2).file_count_by_category k
        = lookupD (create_scan_statistics
          (scan_directories_sequential opts root
            DirectoryScanner.initState).2).file_count_by_category k) := by
  rw [scan_directories_parallel_eq, scan_directories_sequential_eq]
  have hfiles : (DirectoryScanner.initState.all_files
        ++ order.flatMap (dirFileInfos opts)).Perm
      (DirectoryScanner.initState.all_files
        ++ (get_all_directories opts.include_hidden root).flatMap (dirFileInfos opts)) :=
    List.Perm.append_left _ (hperm.flatMap_right (dirFileInfos opts))
  refine ⟨?_, rfl, ?_, ?_, ?_, ?_⟩
  · exact List.Perm.map _ (List.Perm.filter _ (hperm.map (dirRecord opts)))
  · show DirectoryScanner.initState.total_files + (order.map (dirCount opts)).sum
      = DirectoryScanner.initState.total_files
        + ((get_all_directories opts.include_hidden root).map (dirCount opts)).sum
    rw [(hperm.map (dirCount opts)).sum_eq]
  · show DirectoryScanner.initState.total_size + (order.map (dirSize opts)).sum
      = DirectoryScanner.initState.total_size
        + ((get_all_directories opts.include_hidden root).map (dirSize opts)).sum
    rw [(hperm.map (dirSize opts)).sum_eq]
  · intro k
    unfold create_scan_statistics
    rw [lookupD_get_category_statistics, lookupD_get_category_statistics]
    exact ((hfiles.filter _).map (fun fi => fi.size_bytes)).sum_eq
  · intro k
    unfold create_scan_statistics
    rw [lookupD_get_file_count_by_category, lookupD_get_file_count_by_category]
    exact (hfiles.filter _).length_eq

/-- C1 witness: the theorem applied to a two-directory tree with the
reversed enumeration as completion order. -/
theorem C1_mode_equivalence_witness :
    ((scan_directories_parallel { target_path := "/r" }
        (FSDir.node "/r" none [{ path := "/r/a.txt", size := 5, statOk := true }]
          [FSDir.node "/r/s" none [{ path := "/r/s/b.jpg", size := 7, statOk := true }] []])
        ((get_all_directories true
          (FSDir.node "/r" none [{ path := "/r/a.txt", size := 5, statOk := true }]
            [FSDir.node "/r/s" none [{ path := "/r/s/b.jpg", size := 7, statOk := true }] []])).reverse)
        DirectoryScanner.initState).1.map
        (fun r => (r.path, r.size_bytes, r.file_count))).Perm
      ((scan_directories_sequential { target_path := "/r" }
        (FSDir.node "/r" none [{ path := "/r/a.txt", size := 5, statOk := true }]
          [FSDir.node "/r/s" none [{ path := "/r/s/b.jpg", size := 7, statOk := true }] []])
        DirectoryScanner.initState).1.map
        (fun r => (r.path, r.size_bytes, r.file_count))) :=
  (C1_mode_equivalence { target_path := "/r" }
    (FSDir.node "/r" none [{ path := "/r/a.txt", size := 5, statOk := true }]
      [FSDir.node "/r/s" none [{ path := "/r/s/b.jpg", size := 7, statOk := true }] []])
    ((get_all_directories true
      (FSDir.node "/r" none [{ path := "/r/a.txt", size := 5, statOk := true }]
        [FSDir.node "/r/s" none [{ path := "/r/s/b.jpg", size := 7, statOk := true }] []])).reverse)
    (List.reverse_perm _)).1
